import Mathlib

/-!
Verification development for the sequential neural-network core in
src/tiny_cnn/network.h (class network).  Floating-point values (float_t)
are modelled exactly by the rationals; vectors (vec_t) by lists of
rationals; labels (label_t) by naturals.  Fallible code returns Except.
-/

namespace TinyCnn

/-- vec_t: a dense ordered sequence of floating-point values, modelled over ℚ. -/
abbrev Vec := List ℚ

/-- Error kinds surfaced by the core (network.h throws nn_error for a
dimension mismatch; an out-of-range index read is undefined behaviour in
the C++ and is made explicit here as its own error value). -/
inductive NnError where
  | dim_mismatch : NnError
  | index_out_of_range : NnError
deriving DecidableEq, Repr

/-! ## Stage chain and forward propagation (network.h lines 104-109, 483-487) -/

/-- One stage of the chain, at the interface the propagation engine
consumes: declared input/output widths, the forward map, and the
activation's valid output range scale() = (min, max). -/
structure StageSpec where
  in_size : ℕ
  out_size : ℕ
  forward : Vec → Vec
  scale_min : ℚ
  scale_max : ℚ

/-- Placeholder stage used for the (never exercised) empty-chain reads. -/
def defaultStage : StageSpec := ⟨0, 0, fun v => v, 0, 1⟩

/-- in_dim(): the head stage's declared input width (network.h line 104). -/
def in_dim (ls : List StageSpec) : ℕ := (ls.headD defaultStage).in_size

/-- out_dim(): the tail stage's declared output width (network.h line 109). -/
def out_dim (ls : List StageSpec) : ℕ := (ls.getLastD defaultStage).out_size

/-- Sequential forward propagation through the chain: the head stage
consumes the input, each later stage consumes its predecessor's output,
and the tail stage's output is the result (head()->forward_propagation
relaying stage to stage). -/
def chainForward (ls : List StageSpec) (v : Vec) : Vec :=
  ls.foldl (fun x st => st.forward x) v

/-- fprop (network.h lines 483-487): validate the input length against
in_dim, failing with a dimension mismatch, else run the chain. -/
def fprop (ls : List StageSpec) (v : Vec) : Except NnError Vec :=
  if v.length ≠ in_dim ls then .error .dim_mismatch
  else .ok (chainForward ls v)

/-- target_value_min() (network.h line 616): lower bound of the tail
activation's valid output range. -/
def target_value_min (ls : List StageSpec) : ℚ := (ls.getLastD defaultStage).scale_min

/-- target_value_max() (network.h line 617): upper bound of the tail
activation's valid output range. -/
def target_value_max (ls : List StageSpec) : ℚ := (ls.getLastD defaultStage).scale_max

/-- label2vector (network.h lines 428-432): expand a classification label
into a dense target of length out_dim holding target_value_min everywhere
and target_value_max at the label's index.  bprop(out, label_t t, idx)
(network.h lines 528-530) feeds this vector to the dense-target bprop. -/
def label2vector (ls : List StageSpec) (t : ℕ) : Vec :=
  (List.replicate (out_dim ls) (target_value_min ls)).set t (target_value_max ls)

/-! ## Evaluation: max_index and test (network.h lines 244-256) -/

/-- Modelled from the spec: max_index lives in util.h, outside this
excerpt.  The spec calls the predicted label the index of the maximum
forward output; ties resolve to the first maximum, as with
std::max_element. -/
def maxIndexAux : List ℚ → ℕ → ℕ → ℚ → ℕ
  | [], _, best, _ => best
  | x :: xs, cur, best, bv =>
    if bv < x then maxIndexAux xs (cur + 1) cur x
    else maxIndexAux xs (cur + 1) best bv

/-- Modelled from the spec: index of the (first) maximum element of a vector. -/
def max_index : Vec → ℕ
  | [] => 0
  | x :: xs => maxIndexAux xs 1 0 x

/-- fprop_max_index (network.h lines 423-425): label of the maximum
forward output. -/
def fprop_max_index (ls : List StageSpec) (v : Vec) : Except NnError ℕ :=
  (fprop ls v).map max_index

/-- The result record (network.h lines 43-86): success and total counters
plus the confusion matrix.  The nested map from (predicted, actual) to a
count is modelled as the multiset of recorded (predicted, actual) pairs;
a cell's count is the pair's multiplicity. -/
structure result where
  num_success : ℕ
  num_total : ℕ
  confusion_matrix : Multiset (ℕ × ℕ)
deriving DecidableEq

/-- The loop body of test (network.h lines 247-254): for sample i,
predicted = fprop_max_index(in[i]), actual = t[i] (read without any
bounds check on t), then update the three counters.  The label read is
made explicit through List.get?, so a read past the end of t surfaces as
index_out_of_range instead of undefined behaviour. -/
def testGo (ls : List StageSpec) (t : List ℕ) :
    List Vec → ℕ → result → Except NnError result
  | [], _, acc => .ok acc
  | x :: xs, i, acc =>
    match fprop_max_index ls x with
    | .error e => .error e
    | .ok predicted =>
      match t.get? i with
      | none => .error .index_out_of_range
      | some actual =>
        testGo ls t xs (i + 1)
          { num_success := acc.num_success + (if predicted = actual then 1 else 0)
            num_total := acc.num_total + 1
            confusion_matrix := (predicted, actual) ::ₘ acc.confusion_matrix }

/-- test (network.h lines 244-256): run inference per sample and build
the confusion matrix. -/
def test (ls : List StageSpec) (inp : List Vec) (t : List ℕ) : Except NnError result :=
  testGo ls t inp 0 ⟨0, 0, 0⟩

/-- Total forward map used to phrase what test's predicted label is when
every access succeeds. -/
def specPredict (ls : List StageSpec) (v : Vec) : ℕ := max_index (chainForward ls v)

/-! ## Batch/epoch trainer (network.h lines 171-204, 434-472)

The trainer drives external collaborators: the layers' forward/backward
contract, the optimizer-driven update_weights, is_exploded, and the
curvature helpers.  They are supplied as an environment of functions over
an abstract network state σ; the trainer's own control flow (batching,
thread partition, the size-1 direct path, the explosion check) is
translated from the source. -/

/-- The collaborator operations train consumes, over a network state σ.
fpropB reads the parameters and returns the output for a thread slot;
bpropB accumulates gradients in a slot; update_weights merges slot
accumulators and applies the optimizer (network.h §layers). -/
structure TrainEnv (σ : Type) where
  fpropB : σ → Vec → ℕ → Vec
  bpropB : σ → Vec → Vec → ℕ → σ
  update_weights : σ → ℕ → ℕ → σ
  is_exploded : σ → Bool
  requires_hessian : Bool
  bprop2nd : σ → Vec → σ
  divide_hessian : σ → ℕ → σ
  init_weight : σ → σ
  set_parallelize : σ → Bool → σ
  optimizer_reset : σ → σ

/-- Modelled from the spec: CNN_TASK_SIZE is the default task-fan-out
threshold constant from util.h, outside this excerpt; its value does not
enter any claim. -/
def CNN_TASK_SIZE : ℕ := 8

/-- train_onebatch (network.h lines 445-462): partition the batch's
indices across min(in_size, num_tasks) worker slots, run forward+backward
for each index j on its slot, then merge and update once with the number
of slots used and the batch size.  The for_i fan-out is modelled as a
sequential fold over the slot indices: slots touch disjoint accumulators,
and the claims about this path fix thread_count = 1, where the fold is
the exact execution order. -/
def train_onebatch {σ : Type} (env : TrainEnv σ) (s : σ) (in_offset in_size : ℕ)
    (inputF : ℕ → Vec) (outputF : ℕ → ℕ → Vec) (num_tasks : ℕ) : σ :=
  let num_threads := min in_size num_tasks
  let data_per_thread := (in_size + num_threads - 1) / num_threads
  let last_index := in_offset + in_size
  let s1 := (List.range num_threads).foldl (fun sa i =>
    let start_index := in_offset + i * data_per_thread
    let end_index := min last_index (start_index + data_per_thread)
    (List.range' start_index (end_index - start_index)).foldl (fun sb j =>
      env.bpropB sb (env.fpropB sb (inputF j) i) (outputF j i) i) sa) s
  env.update_weights s1 num_threads in_size

/-- train_once (network.h lines 434-443): a size-1 batch is processed on
the calling thread — the target is fetched at in_offset, but the forward
pass is run on input_data_function(0), the literal index 0 from the
source — followed by an immediate single-sample weight update; any other
size goes to train_onebatch. -/
def train_once {σ : Type} (env : TrainEnv σ) (s : σ) (in_offset in_size : ℕ)
    (inputF : ℕ → Vec) (outputF : ℕ → ℕ → Vec) (num_tasks : ℕ) : σ :=
  if in_size = 1 then
    let t := outputF in_offset 0
    let s1 := env.bpropB s (env.fpropB s (inputF 0) 0) t 0
    env.update_weights s1 1 1
  else
    train_onebatch env s in_offset in_size inputF outputF num_tasks

/-- calc_hessian (network.h lines 464-472): bounded curvature pre-pass
over at most size_initialize_hessian = 500 samples, then divide. -/
def calc_hessian {σ : Type} (env : TrainEnv σ) (in_size : ℕ) (inputF : ℕ → Vec)
    (s : σ) : σ :=
  let size := min in_size 500
  let s1 := (List.range size).foldl (fun sa i => env.bprop2nd sa (env.fpropB sa (inputF i) 0)) s
  env.divide_hessian s1 size

/-- One iteration of train's inner loop at offset i: the mini-batch
covers min(batch_size, in_size - i) samples (network.h line 193). -/
def trainBatchStep {σ : Type} (env : TrainEnv σ) (n bs : ℕ) (inputF : ℕ → Vec)
    (outputF : ℕ → ℕ → Vec) (num_tasks : ℕ) (s : σ) (i : ℕ) : σ :=
  train_once env s i (min bs (n - i)) inputF outputF num_tasks

/-- The inner mini-batch loop of train (network.h lines 192-200): for
(i = 0; i < n; i += bs) run the step, then — on every iteration with
i % 100 == 0 — check is_exploded and abort returning false.  The C++ for
loop is given explicit fuel (one unit per iteration; train passes n,
which suffices whenever bs ≥ 1); none marks fuel exhaustion, i.e. a
non-terminating loop.  Alongside the flag and final state the loop
records the trace of executed mini-batches as (offset, state after the
batch) pairs. -/
def batchLoop {σ : Type} (step : σ → ℕ → σ) (expl : σ → Bool) (n bs : ℕ) :
    ℕ → ℕ → σ → Option (Bool × σ × List (ℕ × σ))
  | 0, i, s => if i < n then none else some (true, s, [])
  | fuel + 1, i, s =>
    if i < n then
      let s' := step s i
      if i % 100 = 0 ∧ expl s' = true then some (false, s', [(i, s')])
      else
        match batchLoop step expl n bs fuel (i + bs) s' with
        | none => none
        | some (ok, sf, tr) => some (ok, sf, (i, s') :: tr)
    else some (true, s, [])

/-- The epoch loop of train (network.h lines 189-202): per epoch, the
optional curvature pre-pass, then the inner mini-batch loop; an inner
abort propagates out as false immediately (no further epochs). -/
def epochLoop {σ : Type} (step : σ → ℕ → σ) (expl : σ → Bool) (hess : σ → σ)
    (reqH : Bool) (n bs : ℕ) : ℕ → σ → Option (Bool × σ × List (ℕ × σ))
  | 0, s => some (true, s, [])
  | e + 1, s =>
    let s0 := if reqH then hess s else s
    match batchLoop step expl n bs n 0 s0 with
    | none => none
    | some (false, sf, tr) => some (false, sf, tr)
    | some (true, sf, tr) =>
      match epochLoop step expl hess reqH n bs e sf with
      | none => none
      | some (ok, sf2, tr2) => some (ok, sf2, tr ++ tr2)

/-- train (network.h lines 171-204): optional weight reset, parallelism
mode, optimizer reset, then the epoch loop.  Returns the success flag,
the final state, and the executed mini-batch trace (none only if the
inner loop runs out of fuel, which requires bs = 0). -/
def train {σ : Type} (env : TrainEnv σ) (n : ℕ) (inputF : ℕ → Vec)
    (outputF : ℕ → ℕ → Vec) (bs : ℕ) (epoch : ℕ) (reset_weights : Bool)
    (num_tasks : ℕ) (s : σ) : Option (Bool × σ × List (ℕ × σ)) :=
  let s0 := if reset_weights then env.init_weight s else s
  let s1 := env.set_parallelize s0 (decide (bs < CNN_TASK_SIZE))
  let s2 := env.optimizer_reset s1
  epochLoop (trainBatchStep env n bs inputF outputF num_tasks) env.is_exploded
    (calc_hessian env n inputF) env.requires_hessian n bs epoch s2

/-! ## Gradient verifier (network.h lines 309-342, 554-579)

gradient_check walks the chain mutating one layer's weight (or bias)
vector in place and re-running forward propagation, so the model carries
the per-layer parameter and accumulator vectors as explicit state.  The
layers' forward map and the gradient increments produced by one backward
pass are the external stage contract, supplied as functions of the
parameter assignment. -/

/-- The mutable per-stage storage: weight(), bias(), weight_diff(0),
bias_diff(0). -/
structure LayerSt where
  weight : Vec
  bias : Vec
  weight_diff : Vec
  bias_diff : Vec
deriving DecidableEq

/-- Placeholder layer for out-of-range reads. -/
def defaultLayer : LayerSt := ⟨[], [], [], []⟩

/-- The parameter assignment a forward/backward pass reads: each layer's
(weight, bias) pair. -/
def paramsOf (st : List LayerSt) : List (Vec × Vec) := st.map fun l => (l.weight, l.bias)

/-- The external network behaviour gradient_check exercises: the full
forward map as a function of the parameter assignment, the loss E::f,
the per-layer (weight, bias) gradient increments of one backward pass,
and the output dimension and activation range used by label2vector. -/
structure GCNet where
  fpropW : List (Vec × Vec) → Vec → Vec
  lossF : ℚ → ℚ → ℚ
  bpropInc : List (Vec × Vec) → Vec → Vec → List (Vec × Vec)
  net_out_dim : ℕ
  net_scale_min : ℚ
  net_scale_max : ℚ

/-- Which of the two parameter vectors of a layer a calc_delta call
works on: gradient_check passes either (weight, weight_diff) or
(bias, bias_diff) (network.h lines 317-320, 326-335). -/
inductive ParamSel where
  | wsel : ParamSel
  | bsel : ParamSel
deriving DecidableEq

/-- Replace the li-th layer through f; out-of-range indices leave the
state unchanged. -/
def modifyLayer : List LayerSt → ℕ → (LayerSt → LayerSt) → List LayerSt
  | [], _, _ => []
  | l :: ls, 0, f => f l :: ls
  | l :: ls, k + 1, f => l :: modifyLayer ls k f

/-- Read the selected parameter vector of layer li. -/
def getVec (st : List LayerSt) (li : ℕ) : ParamSel → Vec
  | .wsel => (st.getD li defaultLayer).weight
  | .bsel => (st.getD li defaultLayer).bias

/-- Read the selected gradient accumulator of layer li. -/
def getDiff (st : List LayerSt) (li : ℕ) : ParamSel → Vec
  | .wsel => (st.getD li defaultLayer).weight_diff
  | .bsel => (st.getD li defaultLayer).bias_diff

/-- Overwrite the selected parameter vector of layer li. -/
def setVec (st : List LayerSt) (li : ℕ) (ps : ParamSel) (v : Vec) : List LayerSt :=
  modifyLayer st li fun l =>
    match ps with
    | .wsel => { l with weight := v }
    | .bsel => { l with bias := v }

/-- Overwrite the selected gradient accumulator of layer li. -/
def setDiff (st : List LayerSt) (li : ℕ) (ps : ParamSel) (v : Vec) : List LayerSt :=
  modifyLayer st li fun l =>
    match ps with
    | .wsel => { l with weight_diff := v }
    | .bsel => { l with bias_diff := v }

/-- get_loss (network.h lines 489-494): sum E::f over the output
positions. -/
def get_loss (n : GCNet) (out v : Vec) : ℚ :=
  (out.zip v).foldl (fun e p => e + n.lossF p.1 p.2) 0

/-- The loss summed over all samples at the current parameters — the
f_p / f_m accumulation of calc_delta (network.h lines 563-568). -/
def totalLoss (n : GCNet) (ins vs : List Vec) (st : List LayerSt) : ℚ :=
  (ins.zip vs).foldl (fun e p => e + get_loss n (n.fpropW (paramsOf st) p.1) p.2) 0

/-- Add per-layer (weight, bias) gradient increments into the layers'
accumulators; parameters are untouched (the stage contract: backward
writes gradient accumulators only). -/
def addInc : List LayerSt → List (Vec × Vec) → List LayerSt
  | [], _ => []
  | ls, [] => ls
  | l :: ls, inc :: incs =>
    { l with weight_diff := List.zipWith (· + ·) l.weight_diff inc.1
             bias_diff := List.zipWith (· + ·) l.bias_diff inc.2 } :: addInc ls incs

/-- One backward pass bprop(fprop(in), v): per the stage contract the
pass adds gradient increments into each layer's accumulators and
touches no parameter vector. -/
def applyBprop (n : GCNet) (st : List LayerSt) (input target : Vec) : List LayerSt :=
  addInc st (n.bpropInc (paramsOf st) input target)

/-- The backward phase of calc_delta (network.h line 574): run
forward+backward over all samples, accumulating gradients. -/
def bpropAll (n : GCNet) (ins vs : List Vec) (st : List LayerSt) : List LayerSt :=
  (ins.zip vs).foldl (fun sa p => applyBprop n sa p.1 p.2) st

/-- The fixed numerical perturbation of calc_delta:
static const float_t delta = 1e-10 (network.h line 555). -/
def gcDelta : ℚ := 1 / 10 ^ 10

/-- calc_delta (network.h lines 554-579): zero the selected accumulator,
read the parameter at check_index, perturb it to prev + delta and sum
the loss over all samples (f_p), overwrite it to prev - delta and sum
again (f_m), form (f_p - f_m) / (2 delta), restore the original value,
run the analytic backward pass over all samples, and return
|analytic - numerical| together with the mutated state. -/
def calc_delta (n : GCNet) (ins vs : List Vec) (st : List LayerSt) (li : ℕ)
    (ps : ParamSel) (check_index : ℕ) : ℚ × List LayerSt :=
  let st1 := setDiff st li ps (List.replicate (getDiff st li ps).length 0)
  let prev_w := (getVec st1 li ps).getD check_index 0
  let st2 := setVec st1 li ps ((getVec st1 li ps).set check_index (prev_w + gcDelta))
  let f_p := totalLoss n ins vs st2
  let st3 := setVec st2 li ps ((getVec st2 li ps).set check_index (prev_w - gcDelta))
  let f_m := totalLoss n ins vs st3
  let delta_by_numerical := (f_p - f_m) / (2 * gcDelta)
  let st4 := setVec st3 li ps ((getVec st3 li ps).set check_index prev_w)
  let st5 := bpropAll n ins vs st4
  let delta_by_bprop := (getDiff st5 li ps).getD check_index 0
  (|delta_by_bprop - delta_by_numerical|, st5)

/-- The numerical derivative estimate computed inside calc_delta
(network.h lines 560-570), written as its own definition so that the
estimate can be compared against the spec's central-difference formula. -/
def delta_by_numerical (n : GCNet) (ins vs : List Vec) (st : List LayerSt) (li : ℕ)
    (ps : ParamSel) (check_index : ℕ) : ℚ :=
  let prev_w := (getVec st li ps).getD check_index 0
  let f_p := totalLoss n ins vs (setVec st li ps ((getVec st li ps).set check_index (prev_w + gcDelta)))
  let f_m := totalLoss n ins vs (setVec st li ps ((getVec st li ps).set check_index (prev_w - gcDelta)))
  (f_p - f_m) / (2 * gcDelta)

/-- Follows the spec's words: the total loss as a function of the single
checked parameter, every other parameter held fixed. -/
def lossAsFunctionOf (n : GCNet) (ins vs : List Vec) (st : List LayerSt) (li : ℕ)
    (ps : ParamSel) (check_index : ℕ) (x : ℚ) : ℚ :=
  totalLoss n ins vs (setVec st li ps ((getVec st li ps).set check_index x))

/-- Follows the spec's words: the central-difference estimate
(F(x + eps) - F(x - eps)) / (2 eps) with perturbation magnitude eps. -/
def centralDifference (F : ℚ → ℚ) (eps x : ℚ) : ℚ :=
  (F (x + eps) - F (x - eps)) / (2 * eps)

/-- The selected accumulator zeroed, as calc_delta's first statement
leaves it (network.h line 557). -/
def zeroSel (st : List LayerSt) (li : ℕ) (ps : ParamSel) : List LayerSt :=
  setDiff st li ps (List.replicate (getDiff st li ps).length 0)

/-- GRAD_CHECK_ALL / GRAD_CHECK_RANDOM (network.h lines 88-91). -/
inductive grad_check_mode where
  | all : grad_check_mode
  | random : grad_check_mode
deriving DecidableEq

/-- One mode's sweep over a list of checked indices of one parameter
vector: calc_delta per index, short-circuiting to false as soon as the
discrepancy exceeds eps (network.h lines 326-335). -/
def checkIndices (n : GCNet) (ins vs : List Vec) (eps : ℚ) (li : ℕ) (ps : ParamSel) :
    List ℕ → List LayerSt → Bool × List LayerSt
  | [], st => (true, st)
  | i :: rest, st =>
    let r := calc_delta n ins vs st li ps i
    if r.1 > eps then (false, r.2) else checkIndices n ins vs eps li ps rest r.2

/-- Modelled from the spec: label2vector(const label_t*, int, vector<vec_t>*)
is declared outside this excerpt; per the spec each label expands to the
scaled one-hot vector over the network's output dimension. -/
def gcLabel2vector (n : GCNet) (t : ℕ) : Vec :=
  (List.replicate n.net_out_dim n.net_scale_min).set t n.net_scale_max

/-- The layer sweep of gradient_check (network.h lines 314-340): layers
after the head, skipping layers with empty weight; under GRAD_CHECK_ALL
every weight then every bias index is checked, under GRAD_CHECK_RANDOM
ten sampled weight and ten sampled bias indices (uniform_idx lives in
util.h; the sampled indices are supplied by the oracles rw, rb). -/
def gcLayers (n : GCNet) (ins vs : List Vec) (eps : ℚ) (mode : grad_check_mode)
    (rw rb : ℕ → ℕ → ℕ) : List ℕ → List LayerSt → Bool × List LayerSt
  | [], st => (true, st)
  | li :: rest, st =>
    if getVec st li .wsel = [] then gcLayers n ins vs eps mode rw rb rest st
    else
      let widxs := match mode with
        | .all => List.range (getVec st li .wsel).length
        | .random => (List.range 10).map (rw li)
      let r1 := checkIndices n ins vs eps li .wsel widxs st
      if r1.1 = false then (false, r1.2)
      else
        let bidxs := match mode with
          | .all => List.range (getVec st li .bsel).length
          | .random => (List.range 10).map (rb li)
        let r2 := checkIndices n ins vs eps li .bsel bidxs r1.2
        if r2.1 = false then (false, r2.2)
        else gcLayers n ins vs eps mode rw rb rest r2.2

/-- gradient_check (network.h lines 309-342): expand the labels, then
sweep every layer after the head. -/
def gradient_check (n : GCNet) (ins : List Vec) (ts : List ℕ) (eps : ℚ)
    (mode : grad_check_mode) (rw rb : ℕ → ℕ → ℕ) (st : List LayerSt) :
    Bool × List LayerSt :=
  let vs := ts.map (gcLabel2vector n)
  gcLayers n ins vs eps mode rw rb ((List.range st.length).drop 1) st

/-! ## The canonical-link shortcut of bprop (network.h lines 474-481, 509-526)

is_canonical_link enumerates the matched activation/loss pairs; the fast
path sets delta[i] = out[i] - t[i], the general path sets
delta[i] = dot(dE_dy, h.df(out, i)) over the output dimension.  The
concrete activation and loss formulas live in activation_function.h and
loss_function.h, outside this excerpt; the definitions below are
modelled from the spec, which names the pairs (sigmoid + cross-entropy,
tanh + cross-entropy, identity + mean-squared-error, softmax +
multiclass-cross-entropy), using the standard formulas of the functions
so named, each derivative expressed in terms of the output value y as
the source expects.  Output and target vectors of dimension n are
indexed functions here. -/

/-- The activation kinds distinguished by is_canonical_link. -/
inductive ActKind where
  | sigmoid : ActKind
  | tan_h : ActKind
  | identity : ActKind
  | softmax : ActKind
deriving DecidableEq

/-- The loss kinds distinguished by is_canonical_link. -/
inductive LossKind where
  | cross_entropy : LossKind
  | mse : LossKind
  | cross_entropy_multiclass : LossKind
deriving DecidableEq

/-- is_canonical_link (network.h lines 474-481): the four recognized
activation/loss pairs. -/
def is_canonical_link : ActKind → LossKind → Bool
  | .sigmoid, .cross_entropy => true
  | .tan_h, .cross_entropy => true
  | .identity, .mse => true
  | .softmax, .cross_entropy_multiclass => true
  | _, _ => false

/-- Modelled from the spec: dE/dy of the named loss functions, per
output position.  cross_entropy: E = -t ln y - (1-t) ln (1-y);
mse: E = (y-t)^2 / 2; cross_entropy_multiclass: E = -t ln y. -/
def loss_df : LossKind → ℚ → ℚ → ℚ
  | .cross_entropy, y, t => (y - t) / (y * (1 - y))
  | .mse, y, t => y - t
  | .cross_entropy_multiclass, y, t => -t / y

/-- Modelled from the spec: the scalar derivative dy/da of the named
diagonal activations, expressed in the output value y. -/
def act_df : ActKind → ℚ → ℚ
  | .sigmoid, y => y * (1 - y)
  | .tan_h, y => 1 - y * y
  | .identity, _ => 1
  | .softmax, y => y * (1 - y)

/-- Modelled from the spec: h.df(out, i), the activation's Jacobian row
for output position i.  A diagonal activation contributes its scalar
derivative at position i and zero elsewhere; softmax's full Jacobian is
dy_j/da_i = y_j (delta_ij - y_i). -/
def act_jacobian (a : ActKind) (y : ℕ → ℚ) (i j : ℕ) : ℚ :=
  match a with
  | .softmax => y j * ((if i = j then 1 else 0) - y i)
  | _ => if j = i then act_df a (y i) else 0

/-- The general-path delta (network.h lines 515-522):
delta[i] = dot(dE_dy, h.df(out, i)) over the output dimension n. -/
def generalDelta (a : ActKind) (l : LossKind) (n : ℕ) (y t : ℕ → ℚ) (i : ℕ) : ℚ :=
  ∑ j ∈ Finset.range n, loss_df l (y j) (t j) * act_jacobian a y i j

/-- The fast-path delta of the canonical-link shortcut (network.h line
514): delta[i] = out[i] - t[i]. -/
def fastDelta (y t : ℕ → ℚ) (i : ℕ) : ℚ := y i - t i

/-! ## Concrete instances used to evaluate the code at specific inputs -/

/-- A one-parameter network instance for exercising train_once: the
state is (weight, accumulated gradient), the forward output is
w * x + x, backward accumulates output - target, and the update applies
the merged gradient divided by the batch size. -/
def c1env : TrainEnv (ℚ × ℚ) where
  fpropB := fun s x _ => [s.1 * x.headD 0 + x.headD 0]
  bpropB := fun s out t _ => (s.1, s.2 + (out.headD 0 - t.headD 0))
  update_weights := fun s _ bsz => (s.1 - s.2 / (bsz : ℚ), 0)
  is_exploded := fun _ => false
  requires_hessian := false
  bprop2nd := fun s _ => s
  divide_hessian := fun s _ => s
  init_weight := fun s => s
  set_parallelize := fun s _ => s
  optimizer_reset := fun s => s

/-- Dataset for the train_once evaluation: sample i has input [i]. -/
def c1inputF : ℕ → Vec := fun i => [(i : ℚ)]

/-- A second dataset that agrees with c1inputF at index 0 only. -/
def c1inputAlt : ℕ → Vec := fun i => if i = 0 then [0] else [5]

/-- Constant zero targets for the train_once evaluation. -/
def c1outputF : ℕ → ℕ → Vec := fun _ _ => [0]

/-- A trivial training environment over the unit state, never exploding. -/
def c3env : TrainEnv Unit where
  fpropB := fun _ _ _ => []
  bpropB := fun s _ _ _ => s
  update_weights := fun s _ _ => s
  is_exploded := fun _ => false
  requires_hessian := false
  bprop2nd := fun s _ => s
  divide_hessian := fun s _ => s
  init_weight := fun s => s
  set_parallelize := fun s _ => s
  optimizer_reset := fun s => s

/-- A training environment over the unit state for the termination
witness, never exploding. -/
def c9env : TrainEnv Unit where
  fpropB := fun _ _ _ => []
  bpropB := fun s _ _ _ => s
  update_weights := fun s _ _ => s
  is_exploded := fun _ => false
  requires_hessian := false
  bprop2nd := fun s _ => s
  divide_hessian := fun s _ => s
  init_weight := fun s => s
  set_parallelize := fun s _ => s
  optimizer_reset := fun s => s

/-- A one-layer, one-weight network for the gradient-check evaluations:
the forward output is the cube of the single weight (so the central
difference is step-size dependent) and the loss is the raw output. -/
def c2net : GCNet where
  fpropW := fun ps _ =>
    [((ps.headD ([], [])).1.headD 0) * ((ps.headD ([], [])).1.headD 0) *
      ((ps.headD ([], [])).1.headD 0)]
  lossF := fun y _ => y
  bpropInc := fun _ _ _ => [([0], [0])]
  net_out_dim := 1
  net_scale_min := 0
  net_scale_max := 1

/-- The layer state for the c2net evaluations: weight [0] with a
one-slot accumulator. -/
def c2state : List LayerSt := [⟨[0], [0], [0], [0]⟩]

/-- One identity stage of width 1 for the forward-propagation witness. -/
def c5Stage : StageSpec := ⟨1, 1, fun v => v, 0, 1⟩

/-- One identity stage of width 2 for the test witness. -/
def c6Stage : StageSpec := ⟨2, 2, fun v => v, 0, 1⟩

/-- One stage of width 2 for the label2vector witness, with activation
range (-1, 1). -/
def c7Stage : StageSpec := ⟨2, 2, fun v => v, -1, 1⟩

/-- One identity stage of width 1 for the label-access-safety witness. -/
def c10Stage : StageSpec := ⟨1, 1, fun v => v, 0, 1⟩

/-! ## General list helpers -/

theorem getD_set_self {α : Type} (l : List α) (i : ℕ) (a d : α) (h : i < l.length) :
    (l.set i a).getD i d = a := by
  simp [List.getD_eq_getElem?_getD, List.getElem?_set_self', List.getElem?_eq_getElem h]

theorem getD_set_ne {α : Type} (l : List α) (i j : ℕ) (a d : α) (h : i ≠ j) :
    (l.set i a).getD j d = l.getD j d := by
  simp [List.getD_eq_getElem?_getD, List.getElem?_set_ne h]

theorem getD_replicate_of_lt {α : Type} (n : ℕ) (a d : α) (j : ℕ) (h : j < n) :
    (List.replicate n a).getD j d = a := by
  simp [List.getD_eq_getElem?_getD, List.getElem?_eq_getElem, h, List.length_replicate]

theorem set_getD_self {α : Type} (l : List α) (i : ℕ) (d : α) :
    l.set i (l.getD i d) = l := by
  induction l generalizing i with
  | nil => rfl
  | cons x xs ih =>
    cases i with
    | zero => simp [List.getD]
    | succ k =>
      simp only [List.set, List.getD_cons_succ, List.cons.injEq, true_and]
      exact ih k

theorem set_oob {α : Type} (l : List α) (i : ℕ) (a : α) (h : l.length ≤ i) :
    l.set i a = l := by
  induction l generalizing i with
  | nil => rfl
  | cons x xs ih =>
    cases i with
    | zero => simp at h
    | succ k =>
      simp only [List.set, List.cons.injEq, true_and]
      exact ih k (by simpa using h)

theorem getD_map {α β : Type} (f : α → β) (l : List α) (i : ℕ) (d : α) :
    (l.map f).getD i (f d) = f (l.getD i d) := by
  induction l generalizing i with
  | nil => rfl
  | cons x xs ih =>
    cases i with
    | zero => rfl
    | succ k => simpa using ih k

/-! ## Facts about the layer-state operations of the gradient verifier -/

theorem modifyLayer_oob (st : List LayerSt) (li : ℕ) (f : LayerSt → LayerSt)
    (h : st.length ≤ li) : modifyLayer st li f = st := by
  induction st generalizing li with
  | nil => rfl
  | cons l ls ih =>
    cases li with
    | zero => simp at h
    | succ k =>
      simp only [modifyLayer, List.cons.injEq, true_and]
      exact ih k (by simpa using h)

theorem length_modifyLayer (st : List LayerSt) (li : ℕ) (f : LayerSt → LayerSt) :
    (modifyLayer st li f).length = st.length := by
  induction st generalizing li with
  | nil => rfl
  | cons l ls ih =>
    cases li with
    | zero => rfl
    | succ k => simp only [modifyLayer, List.length_cons, ih k]

theorem getD_modifyLayer_self (st : List LayerSt) (li : ℕ) (f : LayerSt → LayerSt)
    (d : LayerSt) (h : li < st.length) :
    (modifyLayer st li f).getD li d = f (st.getD li d) := by
  induction st generalizing li with
  | nil => simp at h
  | cons l ls ih =>
    cases li with
    | zero => rfl
    | succ k =>
      simp only [modifyLayer, List.getD_cons_succ]
      exact ih k (by simpa using h)

theorem modifyLayer_modifyLayer (st : List LayerSt) (li : ℕ)
    (f g : LayerSt → LayerSt) :
    modifyLayer (modifyLayer st li f) li g = modifyLayer st li (fun l => g (f l)) := by
  induction st generalizing li with
  | nil => rfl
  | cons l ls ih =>
    cases li with
    | zero => rfl
    | succ k =>
      simp only [modifyLayer, List.cons.injEq, true_and]
      exact ih k

theorem map_modifyLayer {β : Type} (g : LayerSt → β) (st : List LayerSt) (li : ℕ)
    (f : LayerSt → LayerSt) (hf : ∀ l, g (f l) = g l) :
    (modifyLayer st li f).map g = st.map g := by
  induction st generalizing li with
  | nil => rfl
  | cons l ls ih =>
    cases li with
    | zero => simp [modifyLayer, hf]
    | succ k =>
      simp only [modifyLayer, List.map_cons, List.cons.injEq, true_and]
      exact ih k

theorem modifyLayer_eq_self (st : List LayerSt) (li : ℕ) (f : LayerSt → LayerSt)
    (h : f (st.getD li defaultLayer) = st.getD li defaultLayer) :
    modifyLayer st li f = st := by
  induction st generalizing li with
  | nil => rfl
  | cons l ls ih =>
    cases li with
    | zero =>
      simp only [modifyLayer, List.cons.injEq, and_true]
      exact h
    | succ k =>
      simp only [modifyLayer, List.cons.injEq, true_and]
      exact ih k (by simpa using h)

theorem paramsOf_setDiff (st : List LayerSt) (li : ℕ) (ps : ParamSel) (v : Vec) :
    paramsOf (setDiff st li ps v) = paramsOf st := by
  cases ps <;>
    exact map_modifyLayer _ st li _ (fun l => rfl)

theorem getVec_eq_paramsOf (st : List LayerSt) (li : ℕ) (ps : ParamSel) :
    getVec st li ps =
      (match ps with
        | .wsel => ((paramsOf st).getD li ([], [])).1
        | .bsel => ((paramsOf st).getD li ([], [])).2) := by
  have h := getD_map (fun l => (l.weight, l.bias)) st li defaultLayer
  cases ps with
  | wsel =>
    show (st.getD li defaultLayer).weight = ((paramsOf st).getD li ([], [])).1
    rw [paramsOf, show (([], []) : Vec × Vec) =
      ((fun l => (l.weight, l.bias)) defaultLayer) from rfl, h]
  | bsel =>
    show (st.getD li defaultLayer).bias = ((paramsOf st).getD li ([], [])).2
    rw [paramsOf, show (([], []) : Vec × Vec) =
      ((fun l => (l.weight, l.bias)) defaultLayer) from rfl, h]

theorem getVec_setDiff (st : List LayerSt) (li : ℕ) (ps : ParamSel) (v : Vec)
    (lj : ℕ) (ps' : ParamSel) :
    getVec (setDiff st li ps v) lj ps' = getVec st lj ps' := by
  rw [getVec_eq_paramsOf, paramsOf_setDiff, ← getVec_eq_paramsOf]

theorem totalLoss_congr (n : GCNet) (ins vs : List Vec) (st st' : List LayerSt)
    (h : paramsOf st = paramsOf st') :
    totalLoss n ins vs st = totalLoss n ins vs st' := by
  unfold totalLoss
  rw [h]

theorem setVec_setVec (st : List LayerSt) (li : ℕ) (ps : ParamSel) (v v' : Vec) :
    setVec (setVec st li ps v) li ps v' = setVec st li ps v' := by
  cases ps <;> simp only [setVec, modifyLayer_modifyLayer]

theorem getVec_setVec_self (st : List LayerSt) (li : ℕ) (ps : ParamSel) (v : Vec)
    (h : li < st.length) :
    getVec (setVec st li ps v) li ps = v := by
  cases ps <;>
    (rw [setVec, getVec]; rw [getD_modifyLayer_self st li _ defaultLayer h])

theorem setVec_getVec_self (st : List LayerSt) (li : ℕ) (ps : ParamSel) :
    setVec st li ps (getVec st li ps) = st := by
  cases ps <;>
    exact modifyLayer_eq_self st li _ rfl

theorem setVec_setDiff_comm (st : List LayerSt) (li : ℕ) (ps : ParamSel)
    (z v : Vec) :
    setVec (setDiff st li ps z) li ps v = setDiff (setVec st li ps v) li ps z := by
  cases ps <;> simp only [setVec, setDiff, modifyLayer_modifyLayer]

theorem setVec_oob (st : List LayerSt) (li : ℕ) (ps : ParamSel) (v : Vec)
    (h : st.length ≤ li) : setVec st li ps v = st := by
  cases ps <;> exact modifyLayer_oob st li _ h

theorem paramsOf_addInc (st : List LayerSt) (incs : List (Vec × Vec)) :
    paramsOf (addInc st incs) = paramsOf st := by
  induction st generalizing incs with
  | nil => cases incs <;> rfl
  | cons l ls ih =>
    cases incs with
    | nil => rfl
    | cons inc incs => simp [addInc, paramsOf] at ih ⊢; exact ih incs

theorem paramsOf_applyBprop (n : GCNet) (st : List LayerSt) (input target : Vec) :
    paramsOf (applyBprop n st input target) = paramsOf st := by
  unfold applyBprop
  exact paramsOf_addInc st _

theorem paramsOf_foldl_applyBprop (n : GCNet) :
    ∀ (l : List (Vec × Vec)) (st : List LayerSt),
      paramsOf (l.foldl (fun sa p => applyBprop n sa p.1 p.2) st) = paramsOf st := by
  intro l
  induction l with
  | nil => intro st; rfl
  | cons p rest ih =>
    intro st
    rw [List.foldl_cons, ih, paramsOf_applyBprop]

theorem paramsOf_bpropAll (n : GCNet) (ins vs : List Vec) (st : List LayerSt) :
    paramsOf (bpropAll n ins vs st) = paramsOf st :=
  paramsOf_foldl_applyBprop n (ins.zip vs) st

theorem length_setDiff (st : List LayerSt) (li : ℕ) (ps : ParamSel) (v : Vec) :
    (setDiff st li ps v).length = st.length := by
  cases ps <;> exact length_modifyLayer st li _

theorem setDiff_oob (st : List LayerSt) (li : ℕ) (ps : ParamSel) (v : Vec)
    (h : st.length ≤ li) : setDiff st li ps v = st := by
  cases ps <;> exact modifyLayer_oob st li _ h

theorem paramsOf_zeroSel (st : List LayerSt) (li : ℕ) (ps : ParamSel) :
    paramsOf (zeroSel st li ps) = paramsOf st :=
  paramsOf_setDiff st li ps _

theorem calc_delta_spec (n : GCNet) (ins vs : List Vec) (st : List LayerSt)
    (li : ℕ) (ps : ParamSel) (i : ℕ) :
    calc_delta n ins vs st li ps i =
      (|(getDiff (bpropAll n ins vs (zeroSel st li ps)) li ps).getD i 0 -
         centralDifference (lossAsFunctionOf n ins vs st li ps i) gcDelta
           ((getVec st li ps).getD i 0)|,
       bpropAll n ins vs (zeroSel st li ps)) := by
  by_cases hli : li < st.length
  · have hz : ∀ u : Vec,
        getVec (setVec (setDiff st li ps (List.replicate (getDiff st li ps).length 0))
          li ps u) li ps = u :=
      fun u => getVec_setVec_self _ li ps u (by rw [length_setDiff]; exact hli)
    have hz2 : setVec (setDiff st li ps (List.replicate (getDiff st li ps).length 0))
        li ps (getVec st li ps) =
        setDiff st li ps (List.replicate (getDiff st li ps).length 0) := by
      rw [← getVec_setDiff st li ps (List.replicate (getDiff st li ps).length 0) li ps]
      exact setVec_getVec_self _ li ps
    have hz3 : ∀ (z u : Vec), totalLoss n ins vs (setVec (setDiff st li ps z) li ps u) =
        totalLoss n ins vs (setVec st li ps u) := fun z u => by
      apply totalLoss_congr
      rw [setVec_setDiff_comm, paramsOf_setDiff]
    simp only [calc_delta, zeroSel, centralDifference, lossAsFunctionOf,
      getVec_setDiff, hz, List.set_set, setVec_setVec, set_getD_self, hz2, hz3]
  · have hob : st.length ≤ li := le_of_not_lt hli
    have hso : ∀ v : Vec, setDiff st li ps v = st := fun v => setDiff_oob st li ps v hob
    have hsv : ∀ v : Vec, setVec st li ps v = st := fun v => setVec_oob st li ps v hob
    simp only [calc_delta, zeroSel, centralDifference, lossAsFunctionOf, hso, hsv]

theorem delta_by_numerical_eq (n : GCNet) (ins vs : List Vec) (st : List LayerSt)
    (li : ℕ) (ps : ParamSel) (i : ℕ) :
    delta_by_numerical n ins vs st li ps i =
      centralDifference (lossAsFunctionOf n ins vs st li ps i) gcDelta
        ((getVec st li ps).getD i 0) := rfl

theorem paramsOf_calc_delta (n : GCNet) (ins vs : List Vec) (st : List LayerSt)
    (li : ℕ) (ps : ParamSel) (i : ℕ) :
    paramsOf (calc_delta n ins vs st li ps i).2 = paramsOf st := by
  rw [calc_delta_spec]
  exact (paramsOf_bpropAll n ins vs _).trans (paramsOf_zeroSel st li ps)

theorem paramsOf_checkIndices (n : GCNet) (ins vs : List Vec) (eps : ℚ)
    (li : ℕ) (ps : ParamSel) :
    ∀ (idxs : List ℕ) (st : List LayerSt),
      paramsOf (checkIndices n ins vs eps li ps idxs st).2 = paramsOf st := by
  intro idxs
  induction idxs with
  | nil => intro st; rfl
  | cons i rest ih =>
    intro st
    rw [checkIndices]
    by_cases h : (calc_delta n ins vs st li ps i).1 > eps
    · rw [if_pos h]
      exact paramsOf_calc_delta n ins vs st li ps i
    · rw [if_neg h]
      exact (ih _).trans (paramsOf_calc_delta n ins vs st li ps i)

theorem paramsOf_gcLayers (n : GCNet) (ins vs : List Vec) (eps : ℚ)
    (mode : grad_check_mode) (rwi rbi : ℕ → ℕ → ℕ) :
    ∀ (lis : List ℕ) (st : List LayerSt),
      paramsOf (gcLayers n ins vs eps mode rwi rbi lis st).2 = paramsOf st := by
  intro lis
  induction lis with
  | nil => intro st; rfl
  | cons li rest ih =>
    intro st
    simp only [gcLayers]
    by_cases hemp : getVec st li ParamSel.wsel = []
    · rw [if_pos hemp]
      exact ih st
    · rw [if_neg hemp]
      split
      · exact paramsOf_checkIndices n ins vs eps li ParamSel.wsel _ st
      · split
        · exact (paramsOf_checkIndices n ins vs eps li ParamSel.bsel _ _).trans
            (paramsOf_checkIndices n ins vs eps li ParamSel.wsel _ st)
        · exact ((ih _).trans
            (paramsOf_checkIndices n ins vs eps li ParamSel.bsel _ _)).trans
            (paramsOf_checkIndices n ins vs eps li ParamSel.wsel _ st)

/-! ## Facts about test and its label reads -/

theorem fprop_max_index_ok (ls : List StageSpec) (x : Vec) (p : ℕ)
    (h : fprop_max_index ls x = .ok p) : p = specPredict ls x := by
  unfold fprop_max_index fprop at h
  by_cases hc : x.length = in_dim ls
  · simp [hc, Except.map] at h
    simp [specPredict, h]
  · simp [hc, Except.map] at h

theorem fprop_max_index_error_kind (ls : List StageSpec) (x : Vec) (e : NnError)
    (h : fprop_max_index ls x = .error e) : e = .dim_mismatch := by
  unfold fprop_max_index fprop at h
  by_cases hc : x.length = in_dim ls
  · simp [hc, Except.map] at h
  · simp [hc, Except.map] at h
    exact h.symm

theorem drop_eq_cons_of_get? {α : Type} (t : List α) (i : ℕ) (a : α)
    (h : t.get? i = some a) : t.drop i = a :: t.drop (i + 1) := by
  induction t generalizing i with
  | nil => simp at h
  | cons x xs ih =>
    cases i with
    | zero => simp at h; simp [h]
    | succ k => simpa using ih k (by simpa using h)

theorem testGo_ok_spec (ls : List StageSpec) (t : List ℕ) :
    ∀ (xs : List Vec) (i : ℕ) (acc r : result),
      testGo ls t xs i acc = .ok r →
      r.num_total = acc.num_total + xs.length ∧
      Multiset.card r.confusion_matrix = Multiset.card acc.confusion_matrix + xs.length ∧
      r.num_success = acc.num_success +
        ((xs.map (specPredict ls)).zip (t.drop i)).countP (fun p => p.1 == p.2) := by
  intro xs
  induction xs with
  | nil =>
    intro i acc r h
    simp only [testGo, Except.ok.injEq] at h
    subst h
    simp
  | cons x xs ih =>
    intro i acc r h
    rw [testGo] at h
    cases hf : fprop_max_index ls x with
    | error e => rw [hf] at h; exact absurd h (by simp)
    | ok predicted =>
      rw [hf] at h
      cases hg : t.get? i with
      | none => rw [hg] at h; exact absurd h (by simp)
      | some actual =>
        rw [hg] at h
        have hpred : predicted = specPredict ls x := fprop_max_index_ok ls x predicted hf
        obtain ⟨h1, h2, h3⟩ := ih (i + 1) _ r h
        rw [drop_eq_cons_of_get? t i actual hg]
        refine ⟨?_, ?_, ?_⟩
        · simp only [List.length_cons]
          simp at h1
          omega
        · simp only [List.length_cons]
          simp at h2
          omega
        · rw [h3, List.map_cons, List.zip_cons_cons, List.countP_cons]
          simp only [hpred]
          by_cases hm : specPredict ls x = actual
          · simp [hm]
            omega
          · simp [hm]

theorem testGo_ne_oob (ls : List StageSpec) (t : List ℕ) :
    ∀ (xs : List Vec) (i : ℕ) (acc : result),
      i + xs.length ≤ t.length →
      testGo ls t xs i acc ≠ .error .index_out_of_range := by
  intro xs
  induction xs with
  | nil => intro i acc h; simp [testGo]
  | cons x xs ih =>
    intro i acc h
    rw [testGo]
    cases hf : fprop_max_index ls x with
    | error e =>
      have he := fprop_max_index_error_kind ls x e hf
      subst he
      simp
    | ok predicted =>
      cases hg : t.get? i with
      | none =>
        have hi : i < t.length := by simp at h; omega
        rw [List.get?_eq_getElem?, List.getElem?_eq_getElem hi] at hg
        simp at hg
      | some actual =>
        exact ih (i + 1) _ (by simp at h ⊢; omega)

theorem testGo_oob (ls : List StageSpec) (t : List ℕ) :
    ∀ (xs : List Vec) (i : ℕ) (acc : result),
      (∀ v ∈ xs, v.length = in_dim ls) → i ≤ t.length → t.length < i + xs.length →
      testGo ls t xs i acc = .error .index_out_of_range := by
  intro xs
  induction xs with
  | nil =>
    intro i acc _ h1 h2
    exfalso
    simp at h2
    omega
  | cons x xs ih =>
    intro i acc hdim h1 h2
    rw [testGo]
    have hfok : fprop_max_index ls x = .ok (max_index (chainForward ls x)) := by
      unfold fprop_max_index fprop
      simp [hdim x (by simp), Except.map]
    rw [hfok]
    by_cases hi : i < t.length
    · rw [List.get?_eq_getElem?, List.getElem?_eq_getElem hi]
      exact ih (i + 1) _ (fun v hv => hdim v (by simp [hv])) (by omega)
        (by simp at h2 ⊢; omega)
    · have hnone : t.get? i = none := by
        rw [List.get?_eq_getElem?]
        exact List.getElem?_eq_none (by omega)
      rw [hnone]

/-! ## Facts about the train loop -/

theorem ceil_div_step (m bs : ℕ) (hbs : 1 ≤ bs) (hm : 0 < m) :
    (m + bs - 1) / bs = 1 + (m - bs + bs - 1) / bs := by
  rcases le_or_lt bs m with h | h
  · have h1 : m + bs - 1 = (m - 1) + bs := by omega
    have h2 : m - bs + bs - 1 = m - 1 := by omega
    rw [h1, h2, Nat.add_div_right _ (by omega)]
    exact Nat.add_comm _ 1
  · have h0 : m - bs + bs - 1 = bs - 1 := by omega
    have h1 : m + bs - 1 = (m - 1) + bs := by omega
    have h2 : (m - 1) / bs = 0 := Nat.div_eq_of_lt (by omega)
    have h3 : (bs - 1) / bs = 0 := Nat.div_eq_of_lt (by omega)
    rw [h0, h1, Nat.add_div_right _ (by omega), h2, h3]

theorem batchLoop_ne_none {σ : Type} (step : σ → ℕ → σ) (expl : σ → Bool)
    (n bs : ℕ) (hbs : 1 ≤ bs) :
    ∀ (fuel i : ℕ) (s : σ), n - i ≤ fuel →
      batchLoop step expl n bs fuel i s ≠ none := by
  intro fuel
  induction fuel with
  | zero =>
    intro i s h
    have hin : ¬ i < n := by omega
    simp [batchLoop, hin]
  | succ f ih =>
    intro i s h
    rw [batchLoop]
    by_cases hin : i < n
    · rw [if_pos hin]
      by_cases hfire : i % 100 = 0 ∧ expl (step s i) = true
      · simp [hfire]
      · rw [if_neg hfire]
        cases hrec : batchLoop step expl n bs f (i + bs) (step s i) with
        | none => exact absurd hrec (ih (i + bs) (step s i) (by omega))
        | some r => simp [hrec]
    · simp [hin]

theorem batchLoop_true_spec {σ : Type} (step : σ → ℕ → σ) (expl : σ → Bool)
    (n bs : ℕ) (hbs : 1 ≤ bs) :
    ∀ (fuel i : ℕ) (s sf : σ) (tr : List (ℕ × σ)),
      batchLoop step expl n bs fuel i s = some (true, sf, tr) →
      tr.length = (n - i + bs - 1) / bs ∧
      ∀ p ∈ tr, p.1 % 100 = 0 → expl p.2 = false := by
  intro fuel
  induction fuel with
  | zero =>
    intro i s sf tr h
    by_cases hin : i < n
    · simp [batchLoop, hin] at h
    · simp [batchLoop, hin] at h
      obtain ⟨-, htr⟩ := h
      subst htr
      refine ⟨?_, by simp⟩
      have hn : n - i = 0 := by omega
      rw [hn]
      exact (Nat.div_eq_of_lt (by omega)).symm
  | succ f ih =>
    intro i s sf tr h
    by_cases hin : i < n
    · rw [batchLoop, if_pos hin] at h
      by_cases hfire : i % 100 = 0 ∧ expl (step s i) = true
      · rw [if_pos hfire] at h
        simp at h
      · rw [if_neg hfire] at h
        cases hrec : batchLoop step expl n bs f (i + bs) (step s i) with
        | none => rw [hrec] at h; simp at h
        | some r =>
          obtain ⟨ok, sf2, tr2⟩ := r
          rw [hrec] at h
          dsimp only at h
          simp only [Option.some.injEq, Prod.mk.injEq] at h
          obtain ⟨hok, -, htr⟩ := h
          subst hok
          subst htr
          obtain ⟨hlen, hclean⟩ := ih (i + bs) (step s i) sf2 tr2 hrec
          constructor
          · rw [List.length_cons, hlen, ceil_div_step (n - i) bs hbs (by omega)]
            have hsub : n - i - bs = n - (i + bs) := by omega
            rw [hsub]
            exact Nat.add_comm _ 1
          · intro p hp hp100
            rcases List.mem_cons.mp hp with hp1 | hp2
            · subst hp1
              cases hbe : expl (step s i) with
              | false => rfl
              | true => exact absurd ⟨hp100, hbe⟩ hfire
            · exact hclean p hp2 hp100
    · rw [batchLoop, if_neg hin] at h
      simp only [Option.some.injEq, Prod.mk.injEq, true_and] at h
      obtain ⟨-, htr⟩ := h
      subst htr
      refine ⟨?_, by simp⟩
      have hn : n - i = 0 := by omega
      rw [hn]
      exact (Nat.div_eq_of_lt (by omega)).symm

theorem batchLoop_false_spec {σ : Type} (step : σ → ℕ → σ) (expl : σ → Bool)
    (n bs : ℕ) :
    ∀ (fuel i : ℕ) (s sf : σ) (tr : List (ℕ × σ)),
      batchLoop step expl n bs fuel i s = some (false, sf, tr) →
      ∃ pre q, tr = pre ++ [q] ∧ q.1 % 100 = 0 ∧ expl q.2 = true ∧ sf = q.2 := by
  intro fuel
  induction fuel with
  | zero =>
    intro i s sf tr h
    by_cases hin : i < n
    · simp [batchLoop, hin] at h
    · simp [batchLoop, hin] at h
  | succ f ih =>
    intro i s sf tr h
    by_cases hin : i < n
    · rw [batchLoop, if_pos hin] at h
      by_cases hfire : i % 100 = 0 ∧ expl (step s i) = true
      · rw [if_pos hfire] at h
        simp only [Option.some.injEq, Prod.mk.injEq, true_and] at h
        obtain ⟨hsf, htr⟩ := h
        subst htr
        exact ⟨[], (i, step s i), rfl, hfire.1, hfire.2, hsf.symm ▸ rfl⟩
      · rw [if_neg hfire] at h
        cases hrec : batchLoop step expl n bs f (i + bs) (step s i) with
        | none => rw [hrec] at h; simp at h
        | some r =>
          obtain ⟨ok, sf2, tr2⟩ := r
          rw [hrec] at h
          dsimp only at h
          simp only [Option.some.injEq, Prod.mk.injEq] at h
          obtain ⟨hok, hsf, htr⟩ := h
          subst hok
          subst htr
          obtain ⟨pre, q, htr2, hq1, hq2, hq3⟩ := ih (i + bs) (step s i) sf2 tr2 hrec
          exact ⟨(i, step s i) :: pre, q, by simp [htr2], hq1, hq2, hsf ▸ hq3⟩
    · rw [batchLoop, if_neg hin] at h
      simp at h

theorem epochLoop_ne_none {σ : Type} (step : σ → ℕ → σ) (expl : σ → Bool)
    (hess : σ → σ) (reqH : Bool) (n bs : ℕ) (hbs : 1 ≤ bs) :
    ∀ (e : ℕ) (s : σ), epochLoop step expl hess reqH n bs e s ≠ none := by
  intro e
  induction e with
  | zero => intro s; simp [epochLoop]
  | succ e ih =>
    intro s
    rw [epochLoop]
    cases hb : batchLoop step expl n bs n 0 (if reqH then hess s else s) with
    | none => exact absurd hb (batchLoop_ne_none step expl n bs hbs n 0 _ (by omega))
    | some r =>
      obtain ⟨ok, sf, tr⟩ := r
      cases ok with
      | false => simp
      | true =>
        cases he : epochLoop step expl hess reqH n bs e sf with
        | none => exact absurd he (ih sf)
        | some r2 => simp [he]

theorem epochLoop_true_spec {σ : Type} (step : σ → ℕ → σ) (expl : σ → Bool)
    (hess : σ → σ) (reqH : Bool) (n bs : ℕ) (hbs : 1 ≤ bs) :
    ∀ (e : ℕ) (s sf : σ) (tr : List (ℕ × σ)),
      epochLoop step expl hess reqH n bs e s = some (true, sf, tr) →
      tr.length = e * ((n + bs - 1) / bs) ∧
      ∀ p ∈ tr, p.1 % 100 = 0 → expl p.2 = false := by
  intro e
  induction e with
  | zero =>
    intro s sf tr h
    simp only [epochLoop, Option.some.injEq, Prod.mk.injEq, true_and] at h
    obtain ⟨-, htr⟩ := h
    subst htr
    simp
  | succ e ih =>
    intro s sf tr h
    rw [epochLoop] at h
    cases hb : batchLoop step expl n bs n 0 (if reqH then hess s else s) with
    | none => rw [hb] at h; simp at h
    | some r =>
      obtain ⟨ok, sf1, tr1⟩ := r
      rw [hb] at h
      cases ok with
      | false => dsimp only at h; simp at h
      | true =>
        dsimp only at h
        cases he : epochLoop step expl hess reqH n bs e sf1 with
        | none => rw [he] at h; simp at h
        | some r2 =>
          obtain ⟨ok2, sf2, tr2⟩ := r2
          rw [he] at h
          dsimp only at h
          simp only [Option.some.injEq, Prod.mk.injEq] at h
          obtain ⟨hok, hsf, htr⟩ := h
          subst hok
          subst hsf
          subst htr
          obtain ⟨hl1, hc1⟩ := batchLoop_true_spec step expl n bs hbs n 0 _ sf1 tr1 hb
          obtain ⟨hl2, hc2⟩ := ih sf1 sf2 tr2 he
          constructor
          · rw [List.length_append, hl1, hl2]
            have hn0 : n - 0 = n := by omega
            rw [hn0, Nat.succ_mul]
            omega
          · intro p hp hp100
            rcases List.mem_append.mp hp with hp1 | hp2
            · exact hc1 p hp1 hp100
            · exact hc2 p hp2 hp100

theorem epochLoop_false_spec {σ : Type} (step : σ → ℕ → σ) (expl : σ → Bool)
    (hess : σ → σ) (reqH : Bool) (n bs : ℕ) :
    ∀ (e : ℕ) (s sf : σ) (tr : List (ℕ × σ)),
      epochLoop step expl hess reqH n bs e s = some (false, sf, tr) →
      ∃ pre q, tr = pre ++ [q] ∧ q.1 % 100 = 0 ∧ expl q.2 = true ∧ sf = q.2 := by
  intro e
  induction e with
  | zero => intro s sf tr h; simp [epochLoop] at h
  | succ e ih =>
    intro s sf tr h
    rw [epochLoop] at h
    cases hb : batchLoop step expl n bs n 0 (if reqH then hess s else s) with
    | none => rw [hb] at h; simp at h
    | some r =>
      obtain ⟨ok, sf1, tr1⟩ := r
      rw [hb] at h
      cases ok with
      | false =>
        dsimp only at h
        simp only [Option.some.injEq, Prod.mk.injEq, true_and] at h
        obtain ⟨hsf, htr⟩ := h
        subst htr
        obtain ⟨pre, q, htr2, hq1, hq2, hq3⟩ :=
          batchLoop_false_spec step expl n bs n 0 _ sf1 tr1 hb
        exact ⟨pre, q, htr2, hq1, hq2, by rw [← hsf, hq3]⟩
      | true =>
        dsimp only at h
        cases he : epochLoop step expl hess reqH n bs e sf1 with
        | none => rw [he] at h; simp at h
        | some r2 =>
          obtain ⟨ok2, sf2, tr2⟩ := r2
          rw [he] at h
          dsimp only at h
          simp only [Option.some.injEq, Prod.mk.injEq] at h
          obtain ⟨hok, hsf, htr⟩ := h
          subst htr
          obtain ⟨pre, q, htr2, hq1, hq2, hq3⟩ :=
            ih sf1 sf2 tr2 (by rw [he, ← hok])
          refine ⟨tr1 ++ pre, q, by simp [htr2], hq1, hq2, by rw [← hsf, hq3]⟩


/-! ## C1: the size-1 direct path of train_once -/

/-- C1: evaluation of the code at the failing input.  With a dataset
whose samples 0 and 1 differ, the size-1 direct path of train_once at
batch offset 1 forward-propagates input_data_function(0) — its result is
unchanged when every input except index 0 is replaced — and its
parameter update differs from the one train_onebatch produces for the
same (offset 1, size 1) batch on one thread, contradicting the claim
that the size-1 path forwards the input at the current batch's offset
index exactly as the batched path does. -/
theorem c1_size_one_path_reads_input_index_zero :
    train_once c1env (0, 0) 1 1 c1inputF c1outputF 1 =
      train_once c1env (0, 0) 1 1 c1inputAlt c1outputF 1 ∧
    train_once c1env (0, 0) 1 1 c1inputF c1outputF 1 = (0, 0) ∧
    train_onebatch c1env (0, 0) 1 1 c1inputF c1outputF 1 = (-1, 0) ∧
    train_once c1env (0, 0) 1 1 c1inputF c1outputF 1 ≠
      train_onebatch c1env (0, 0) 1 1 c1inputF c1outputF 1 := by
  have h1 : train_once c1env (0, 0) 1 1 c1inputF c1outputF 1 = (0, 0) := by
    norm_num [train_once, c1env, c1inputF, c1outputF]
  have h1' : train_once c1env (0, 0) 1 1 c1inputAlt c1outputF 1 = (0, 0) := by
    norm_num [train_once, c1env, c1inputAlt, c1outputF]
  have h2 : train_onebatch c1env (0, 0) 1 1 c1inputF c1outputF 1 = (-1, 0) := by
    norm_num [train_onebatch, c1env, c1inputF, c1outputF, List.range_succ, List.range']
  refine ⟨h1.trans h1'.symm, h1, h2, ?_⟩
  rw [h1, h2]
  norm_num [Prod.ext_iff]

/-! ## C5: the dimension gate of fprop -/

/-- C5: fprop fails (with the dimension-mismatch error) exactly when the
input's size differs from the head stage's declared input width; on a
matching input it feeds the input to the head stage and returns the tail
stage's output. -/
theorem c5_fprop_dimension_gate (ls : List StageSpec) (v : Vec) :
    ((∃ e, fprop ls v = .error e) ↔ v.length ≠ in_dim ls) ∧
    (∀ hd tl, ls = hd :: tl → v.length = in_dim ls →
      fprop ls v = .ok (chainForward tl (hd.forward v))) ∧
    (∀ pre lst, ls = pre ++ [lst] → v.length = in_dim ls →
      fprop ls v = .ok (lst.forward (chainForward pre v))) := by
  refine ⟨?_, ?_, ?_⟩
  · by_cases h : v.length = in_dim ls
    · simp [fprop, h]
    · simp [fprop, h]
  · rintro hd tl rfl h
    simp [fprop, h, chainForward]
  · rintro pre lst rfl h
    simp [fprop, h, chainForward, List.foldl_append]

/-- C5 witness: a width-1 identity chain on a fitting input. -/
theorem c5_fprop_dimension_gate_witness :
    ([(0 : ℚ)].length = in_dim [c5Stage]) ∧
    fprop [c5Stage] [(0 : ℚ)] = .ok (chainForward [] (c5Stage.forward [(0 : ℚ)])) :=
  ⟨by decide, (c5_fprop_dimension_gate [c5Stage] [(0 : ℚ)]).2.1 c5Stage [] rfl (by decide)⟩

/-! ## C7: the label expansion of backward propagation -/

/-- C7: for a label t below the output dimension, label2vector produces
a vector of length out_dim holding the tail activation's upper range
bound at index t and its lower range bound at every other index. -/
theorem c7_label2vector_scaled_one_hot (ls : List StageSpec) (t j : ℕ)
    (ht : t < out_dim ls) (hj : j < out_dim ls) (hjt : j ≠ t) :
    (label2vector ls t).length = out_dim ls ∧
    (label2vector ls t).getD t 0 = target_value_max ls ∧
    (label2vector ls t).getD j 0 = target_value_min ls := by
  refine ⟨by simp [label2vector], ?_, ?_⟩
  · rw [label2vector]
    exact getD_set_self _ _ _ _ (by simpa using ht)
  · rw [label2vector, getD_set_ne _ _ _ _ _ (Ne.symm hjt)]
    exact getD_replicate_of_lt _ _ _ _ hj

/-- C7 witness: label 1 in a 2-output chain with activation range (-1, 1). -/
theorem c7_label2vector_scaled_one_hot_witness :
    ((1 : ℕ) < out_dim [c7Stage] ∧ (0 : ℕ) < out_dim [c7Stage] ∧ (0 : ℕ) ≠ 1) ∧
    ((label2vector [c7Stage] 1).length = out_dim [c7Stage] ∧
      (label2vector [c7Stage] 1).getD 1 0 = target_value_max [c7Stage] ∧
      (label2vector [c7Stage] 1).getD 0 0 = target_value_min [c7Stage]) :=
  ⟨⟨by decide, by decide, by decide⟩,
    c7_label2vector_scaled_one_hot [c7Stage] 1 0 (by decide) (by decide) (by decide)⟩

/-! ## C4: the canonical-link shortcut -/

/-- C4 counterexample: tanh + cross-entropy is recognized as a canonical
link, yet at output 1/2 and target 0 the general-path delta is 3/2 while
the fast-path delta is 1/2 — a gap of 1, far beyond the 1e-6 tolerance,
so the claimed agreement of the two paths fails for this pair. -/
theorem c4_tanh_cross_entropy_counterexample :
    is_canonical_link .tan_h .cross_entropy = true ∧
    ¬(|generalDelta .tan_h .cross_entropy 1 (fun _ => (1 : ℚ)/2) (fun _ => 0) 0 -
        fastDelta (fun _ => (1 : ℚ)/2) (fun _ => 0) 0| ≤ 1 / 10 ^ 6) := by
  constructor
  · rfl
  · norm_num [generalDelta, fastDelta, act_jacobian, act_df, loss_df,
      Finset.sum_range_succ, Finset.sum_range_zero]

/-- C4 amended: the fast-path delta output - target equals the
general-path dot product of dE/dy with the activation Jacobian row
exactly (hence within any tolerance) for sigmoid + cross-entropy at
outputs away from 0 and 1, for identity + mean-squared-error
unconditionally, and for softmax + multiclass-cross-entropy at nonzero
outputs when the target sums to 1; tanh + cross-entropy is excluded. -/
theorem c4_canonical_pairs_amended (n : ℕ) (y t : ℕ → ℚ) (i : ℕ) :
    (i < n → y i ≠ 0 → y i ≠ 1 →
      generalDelta .sigmoid .cross_entropy n y t i = fastDelta y t i) ∧
    (i < n → generalDelta .identity .mse n y t i = fastDelta y t i) ∧
    (i < n → (∀ j, j < n → y j ≠ 0) → (∑ j ∈ Finset.range n, t j) = 1 →
      generalDelta .softmax .cross_entropy_multiclass n y t i = fastDelta y t i) := by
  refine ⟨?_, ?_, ?_⟩
  · intro hi h0 h1
    unfold generalDelta fastDelta
    rw [Finset.sum_eq_single i]
    · simp only [act_jacobian, act_df, loss_df, eq_self_iff_true, if_true]
      rw [div_mul_cancel₀]
      exact mul_ne_zero h0 (sub_ne_zero.mpr (Ne.symm h1))
    · intro j hj hne
      simp [act_jacobian, hne]
    · intro hmem
      exact absurd (Finset.mem_range.mpr hi) hmem
  · intro hi
    unfold generalDelta fastDelta
    rw [Finset.sum_eq_single i]
    · simp [act_jacobian, act_df, loss_df]
    · intro j hj hne
      simp [act_jacobian, hne]
    · intro hmem
      exact absurd (Finset.mem_range.mpr hi) hmem
  · intro hi hy ht
    unfold generalDelta fastDelta
    have key : ∀ j ∈ Finset.range n,
        loss_df .cross_entropy_multiclass (y j) (t j) * act_jacobian .softmax y i j =
          (if i = j then (-1 : ℚ) * t j else 0) + t j * y i := by
      intro j hj
      have hyj := hy j (Finset.mem_range.mp hj)
      simp only [loss_df, act_jacobian]
      by_cases hij : i = j
      · rw [if_pos hij, if_pos hij]
        subst hij
        field_simp
        ring
      · rw [if_neg hij, if_neg hij]
        field_simp
        ring
    rw [Finset.sum_congr rfl key, Finset.sum_add_distrib,
      Finset.sum_ite_eq (Finset.range n) i (fun j => (-1 : ℚ) * t j),
      if_pos (Finset.mem_range.mpr hi), ← Finset.sum_mul, ht]
    ring

/-- C4 witness: the three surviving pairs evaluated at output 1/2 and
target 1 in dimension 1. -/
theorem c4_canonical_pairs_amended_witness :
    generalDelta .sigmoid .cross_entropy 1 (fun _ => (1 : ℚ)/2) (fun _ => 1) 0 =
      fastDelta (fun _ => (1 : ℚ)/2) (fun _ => 1) 0 ∧
    generalDelta .identity .mse 1 (fun _ => (1 : ℚ)/2) (fun _ => 1) 0 =
      fastDelta (fun _ => (1 : ℚ)/2) (fun _ => 1) 0 ∧
    generalDelta .softmax .cross_entropy_multiclass 1 (fun _ => (1 : ℚ)/2) (fun _ => 1) 0 =
      fastDelta (fun _ => (1 : ℚ)/2) (fun _ => 1) 0 :=
  ⟨(c4_canonical_pairs_amended 1 (fun _ => (1 : ℚ)/2) (fun _ => 1) 0).1
      (by decide) (by norm_num) (by norm_num),
   (c4_canonical_pairs_amended 1 (fun _ => (1 : ℚ)/2) (fun _ => 1) 0).2.1 (by decide),
   (c4_canonical_pairs_amended 1 (fun _ => (1 : ℚ)/2) (fun _ => 1) 0).2.2
      (by decide) (fun j hj => by norm_num) (by simp)⟩

/-! ## C6: the counters of test -/

/-- C6: for input and label lists of equal length, a result returned by
test has confusion-matrix cell counts summing to num_total, num_total
equal to the number of samples, and num_success equal to the number of
samples whose predicted label (index of the maximum forward output)
equals the actual label. -/
theorem c6_test_confusion_counts (ls : List StageSpec) (inp : List Vec) (t : List ℕ)
    (r : result) (hlen : t.length = inp.length) (h : test ls inp t = .ok r) :
    (∑ p ∈ r.confusion_matrix.toFinset, r.confusion_matrix.count p) = r.num_total ∧
    r.num_total = inp.length ∧
    r.num_success = ((inp.map (specPredict ls)).zip t).countP (fun p => p.1 == p.2) := by
  obtain ⟨h1, h2, h3⟩ := testGo_ok_spec ls t inp 0 ⟨0, 0, 0⟩ r h
  simp only [List.drop_zero] at h3
  refine ⟨?_, by simpa using h1, by simpa using h3⟩
  rw [Multiset.toFinset_sum_count_eq]
  simp at h1 h2
  omega

/-- C6 witness: a 2-output identity chain on two samples, one classified
correctly. -/
theorem c6_test_confusion_counts_witness :
    (([0, 0] : List ℕ).length = ([[(1 : ℚ), 0], [(0 : ℚ), 1]] : List Vec).length) ∧
    ((∑ p ∈ (result.mk 1 2 ((1, 0) ::ₘ (0, 0) ::ₘ 0)).confusion_matrix.toFinset,
        (result.mk 1 2 ((1, 0) ::ₘ (0, 0) ::ₘ 0)).confusion_matrix.count p) =
          (result.mk 1 2 ((1, 0) ::ₘ (0, 0) ::ₘ 0)).num_total ∧
      (result.mk 1 2 ((1, 0) ::ₘ (0, 0) ::ₘ 0)).num_total =
        ([[(1 : ℚ), 0], [(0 : ℚ), 1]] : List Vec).length ∧
      (result.mk 1 2 ((1, 0) ::ₘ (0, 0) ::ₘ 0)).num_success =
        ((([[(1 : ℚ), 0], [(0 : ℚ), 1]] : List Vec).map (specPredict [c6Stage])).zip
          [0, 0]).countP (fun p => p.1 == p.2)) :=
  ⟨rfl,
    c6_test_confusion_counts [c6Stage] [[(1 : ℚ), 0], [(0 : ℚ), 1]] [0, 0]
      (result.mk 1 2 ((1, 0) ::ₘ (0, 0) ::ₘ 0)) rfl
      (by norm_num [test, testGo, fprop_max_index, fprop, in_dim, c6Stage,
        chainForward, max_index, maxIndexAux, Except.map])⟩

/-! ## C10: the unchecked label reads of test -/

/-- C10: test reads t[i] for every sample index i without checking the
label list's length.  When the label list is at least as long as the
input list every label read is in bounds — test never returns the
out-of-range marker; conversely, on dimension-valid inputs with a
shorter label list, test does read past the end. -/
theorem c10_test_label_reads (ls : List StageSpec) (inp : List Vec) (t : List ℕ) :
    (inp.length ≤ t.length → test ls inp t ≠ .error .index_out_of_range) ∧
    ((∀ v ∈ inp, v.length = in_dim ls) → t.length < inp.length →
      test ls inp t = .error .index_out_of_range) := by
  constructor
  · intro h
    exact testGo_ne_oob ls t inp 0 _ (by omega)
  · intro hdim h
    exact testGo_oob ls t inp 0 _ hdim (by omega) (by omega)

/-- C10 witness: with two labels for one sample no out-of-range read
happens; with one label for two dimension-valid samples it does. -/
theorem c10_test_label_reads_witness :
    test [c10Stage] [[(0 : ℚ)]] [0, 3] ≠ .error .index_out_of_range ∧
    test [c10Stage] [[(0 : ℚ)], [(1 : ℚ)]] [0] = .error .index_out_of_range :=
  ⟨(c10_test_label_reads [c10Stage] [[(0 : ℚ)]] [0, 3]).1 (by decide),
   (c10_test_label_reads [c10Stage] [[(0 : ℚ)], [(1 : ℚ)]] [0]).2
      (by decide) (by decide)⟩

/-! ## C3: explosion detection aborts training -/

/-- C3: the recorded trace of train is the full list of executed
mini-batches.  When train returns true it ran all
epoch * ceil(n / batch_size) mini-batches and the explosion check was
clean at every reached check point (a batch at an offset divisible by
100); when it returns false, the trace ends exactly at a check-point
batch whose post-state is exploded — no further mini-batch and no
further epoch follows it — and the returned state is that state. -/
theorem c3_explosion_detection {σ : Type} (env : TrainEnv σ) (n bs epoch : ℕ)
    (inputF : ℕ → Vec) (outputF : ℕ → ℕ → Vec) (rwt : Bool) (tk : ℕ) (s : σ)
    (hbs : 1 ≤ bs) :
    ∃ r, train env n inputF outputF bs epoch rwt tk s = some r ∧
      (r.1 = true → r.2.2.length = epoch * ((n + bs - 1) / bs) ∧
        ∀ p ∈ r.2.2, p.1 % 100 = 0 → env.is_exploded p.2 = false) ∧
      (r.1 = false → ∃ pre q, r.2.2 = pre ++ [q] ∧ q.1 % 100 = 0 ∧
        env.is_exploded q.2 = true ∧ r.2.1 = q.2) := by
  have htrain : train env n inputF outputF bs epoch rwt tk s =
      epochLoop (trainBatchStep env n bs inputF outputF tk) env.is_exploded
        (calc_hessian env n inputF) env.requires_hessian n bs epoch
        (env.optimizer_reset (env.set_parallelize
          (if rwt then env.init_weight s else s) (decide (bs < CNN_TASK_SIZE)))) := rfl
  rw [htrain]
  cases hr : epochLoop (trainBatchStep env n bs inputF outputF tk) env.is_exploded
      (calc_hessian env n inputF) env.requires_hessian n bs epoch
      (env.optimizer_reset (env.set_parallelize
        (if rwt then env.init_weight s else s) (decide (bs < CNN_TASK_SIZE)))) with
  | none =>
    exact absurd hr (epochLoop_ne_none _ _ _ _ n bs hbs epoch _)
  | some r =>
    obtain ⟨ok, sf, tr⟩ := r
    refine ⟨(ok, sf, tr), rfl, ?_, ?_⟩
    · intro hok
      subst hok
      exact epochLoop_true_spec _ _ _ _ n bs hbs epoch _ sf tr hr
    · intro hok
      subst hok
      exact epochLoop_false_spec _ _ _ _ n bs epoch _ sf tr hr

/-- C3 witness: two epochs over two samples at batch size 1 in a
never-exploding environment. -/
theorem c3_explosion_detection_witness :
    ∃ r, train c3env 2 (fun _ => []) (fun _ _ => []) 1 2 true 1 () = some r ∧
      (r.1 = true → r.2.2.length = 2 * ((2 + 1 - 1) / 1) ∧
        ∀ p ∈ r.2.2, p.1 % 100 = 0 → c3env.is_exploded p.2 = false) ∧
      (r.1 = false → ∃ pre q, r.2.2 = pre ++ [q] ∧ q.1 % 100 = 0 ∧
        c3env.is_exploded q.2 = true ∧ r.2.1 = q.2) :=
  c3_explosion_detection c3env 2 1 2 (fun _ => []) (fun _ _ => []) true 1 () (by decide)

/-! ## C9: termination and the mini-batch count of train -/

/-- C9: with batch_size ≥ 1 the train loop terminates (fuel n suffices)
and, when no early abort occurs, executes exactly
epoch * ceil(n / batch_size) mini-batch steps; with batch_size = 0 and a
non-empty dataset the loop index never advances, so the inner loop
exhausts any amount of fuel when the abort path stays silent — the
precondition batch_size ≥ 1 is required. -/
theorem c9_train_termination {σ : Type} (env : TrainEnv σ) (n bs epoch : ℕ)
    (inputF : ℕ → Vec) (outputF : ℕ → ℕ → Vec) (rwt : Bool) (tk : ℕ) (s : σ)
    (fuel : ℕ) (s0 : σ) :
    (1 ≤ bs → ∃ r, train env n inputF outputF bs epoch rwt tk s = some r ∧
      (r.1 = true → r.2.2.length = epoch * ((n + bs - 1) / bs))) ∧
    (0 < n → (∀ s1, env.is_exploded s1 = false) →
      batchLoop (trainBatchStep env n 0 inputF outputF tk) env.is_exploded
        n 0 fuel 0 s0 = none) := by
  constructor
  · intro hbs
    have htrain : train env n inputF outputF bs epoch rwt tk s =
        epochLoop (trainBatchStep env n bs inputF outputF tk) env.is_exploded
          (calc_hessian env n inputF) env.requires_hessian n bs epoch
          (env.optimizer_reset (env.set_parallelize
            (if rwt then env.init_weight s else s) (decide (bs < CNN_TASK_SIZE)))) := rfl
    rw [htrain]
    cases hr : epochLoop (trainBatchStep env n bs inputF outputF tk) env.is_exploded
        (calc_hessian env n inputF) env.requires_hessian n bs epoch
        (env.optimizer_reset (env.set_parallelize
          (if rwt then env.init_weight s else s) (decide (bs < CNN_TASK_SIZE)))) with
    | none =>
      exact absurd hr (epochLoop_ne_none _ _ _ _ n bs hbs epoch _)
    | some r =>
      obtain ⟨ok, sf, tr⟩ := r
      refine ⟨(ok, sf, tr), rfl, ?_⟩
      intro hok
      subst hok
      exact (epochLoop_true_spec _ _ _ _ n bs hbs epoch _ sf tr hr).1
  · intro hn hexp
    induction fuel generalizing s0 with
    | zero => simp [batchLoop, hn]
    | succ f ih =>
      rw [batchLoop, if_pos hn, if_neg (by simp [hexp])]
      have hz : (0 : ℕ) + 0 = 0 := rfl
      rw [hz, ih]

/-- C9 witness: two epochs over three samples at batch size 2 terminate
with 2 * ceil(3/2) batches; at batch size 0 the inner loop exhausts five
units of fuel. -/
theorem c9_train_termination_witness :
    (∃ r, train c9env 3 (fun _ => []) (fun _ _ => []) 2 2 true 1 () = some r ∧
      (r.1 = true → r.2.2.length = 2 * ((3 + 2 - 1) / 2))) ∧
    batchLoop (trainBatchStep c9env 3 0 (fun _ => []) (fun _ _ => []) 1)
      c9env.is_exploded 3 0 5 0 () = none :=
  ⟨(c9_train_termination c9env 3 2 2 (fun _ => []) (fun _ _ => []) true 1 () 5 ()).1
      (by decide),
   (c9_train_termination c9env 3 2 2 (fun _ => []) (fun _ _ => []) true 1 () 5 ()).2
      (by decide) (fun s1 => rfl)⟩

/-! ## C2: the numerical estimate of the gradient verifier -/

/-- C2 counterexample: on the one-weight cubic network at weight 0, the
numerical derivative estimate the code computes equals 1e-20 — the
central difference at the fixed internal perturbation 1e-10 — whereas
the central difference with the caller-supplied eps = 1 (as the claim
prescribes, a gradient_check call with eps = 1) equals 1, so the
estimate is not the central difference at the caller-supplied
perturbation magnitude. -/
theorem c2_caller_eps_is_not_the_perturbation :
    delta_by_numerical c2net [[0]] [[0]] c2state 0 ParamSel.wsel 0 = 1 / 10 ^ 20 ∧
    centralDifference (lossAsFunctionOf c2net [[0]] [[0]] c2state 0 ParamSel.wsel 0) 1
      ((getVec c2state 0 ParamSel.wsel).getD 0 0) = 1 ∧
    delta_by_numerical c2net [[0]] [[0]] c2state 0 ParamSel.wsel 0 ≠
      centralDifference (lossAsFunctionOf c2net [[0]] [[0]] c2state 0 ParamSel.wsel 0) 1
        ((getVec c2state 0 ParamSel.wsel).getD 0 0) := by
  have h1 : delta_by_numerical c2net [[0]] [[0]] c2state 0 ParamSel.wsel 0 =
      1 / 10 ^ 20 := by
    norm_num [delta_by_numerical, lossAsFunctionOf, totalLoss, get_loss, paramsOf,
      setVec, getVec, modifyLayer, c2net, c2state, gcDelta, defaultLayer]
  have h2 : centralDifference
      (lossAsFunctionOf c2net [[0]] [[0]] c2state 0 ParamSel.wsel 0) 1
      ((getVec c2state 0 ParamSel.wsel).getD 0 0) = 1 := by
    norm_num [centralDifference, lossAsFunctionOf, totalLoss, get_loss, paramsOf,
      setVec, getVec, modifyLayer, c2net, c2state, defaultLayer]
  refine ⟨h1, h2, ?_⟩
  rw [h1, h2]
  norm_num

/-- C2 amended: calc_delta's numerical estimate is the central
difference of the total loss, viewed as a function of the single checked
parameter, at the fixed internal perturbation delta = 1e-10 — not at the
caller-supplied eps; calc_delta returns the absolute gap between the
accumulated analytic gradient and that estimate, and the caller's eps
serves only as the acceptance tolerance the gap is compared against in
gradient_check. -/
theorem c2_fixed_delta_central_difference (n : GCNet) (ins vs : List Vec)
    (st : List LayerSt) (li : ℕ) (ps : ParamSel) (i : ℕ) (eps : ℚ)
    (idxs : List ℕ) :
    (calc_delta n ins vs st li ps i).1 =
      |(getDiff (bpropAll n ins vs (zeroSel st li ps)) li ps).getD i 0 -
        delta_by_numerical n ins vs st li ps i| ∧
    delta_by_numerical n ins vs st li ps i =
      centralDifference (lossAsFunctionOf n ins vs st li ps i) gcDelta
        ((getVec st li ps).getD i 0) ∧
    gcDelta = 1 / 10 ^ 10 ∧
    ((calc_delta n ins vs st li ps i).1 > eps →
      (checkIndices n ins vs eps li ps (i :: idxs) st).1 = false) := by
  refine ⟨?_, delta_by_numerical_eq n ins vs st li ps i, rfl, ?_⟩
  · rw [calc_delta_spec, delta_by_numerical_eq]
  · intro h
    rw [checkIndices]
    rw [if_pos h]

/-- C2 witness: on the cubic network the gap 1e-20 exceeds the tolerance
eps = 0, so the sweep reports failure at that index. -/
theorem c2_fixed_delta_central_difference_witness :
    (calc_delta c2net [[0]] [[0]] c2state 0 ParamSel.wsel 0).1 > 0 ∧
    (checkIndices c2net [[0]] [[0]] 0 0 ParamSel.wsel [0] c2state).1 = false := by
  have hpos : (calc_delta c2net [[0]] [[0]] c2state 0 ParamSel.wsel 0).1 > 0 := by
    rw [calc_delta_spec]
    norm_num [centralDifference, lossAsFunctionOf, totalLoss, get_loss, paramsOf,
      setVec, getVec, getDiff, setDiff, modifyLayer, c2net, c2state, gcDelta,
      defaultLayer, zeroSel, bpropAll, applyBprop, addInc]
  exact ⟨hpos,
    (c2_fixed_delta_central_difference c2net [[0]] [[0]] c2state 0 ParamSel.wsel 0 0
      []).2.2.2 hpos⟩

/-! ## C8: gradient_check restores every parameter -/

/-- C8: with either result and in either mode, gradient_check hands back
a state whose weight and bias vectors all equal the entry values: each
perturbed parameter is restored before the analytic pass, and the
backward pass writes only the gradient accumulators. -/
theorem c8_gradient_check_restores_parameters (n : GCNet) (ins : List Vec)
    (ts : List ℕ) (eps : ℚ) (mode : grad_check_mode) (rwi rbi : ℕ → ℕ → ℕ)
    (st : List LayerSt) (li : ℕ) (ps : ParamSel) :
    paramsOf (gradient_check n ins ts eps mode rwi rbi st).2 = paramsOf st ∧
    getVec (gradient_check n ins ts eps mode rwi rbi st).2 li ps =
      getVec st li ps := by
  have hmain : paramsOf (gradient_check n ins ts eps mode rwi rbi st).2 =
      paramsOf st := by
    unfold gradient_check
    exact paramsOf_gcLayers n ins _ eps mode rwi rbi _ st
  refine ⟨hmain, ?_⟩
  rw [getVec_eq_paramsOf, hmain, ← getVec_eq_paramsOf]

end TinyCnn
